import Mathlib

/-!
Verification of the GDevelop dialogue-tree runtime
(`Extensions/DialogueTree/dialoguetools.js`).

The JavaScript module `gdjs.dialogueTree` is a stateful wrapper around an
external branching-dialogue interpreter (`bondage.Runner`).  We embed its
mutable module-level fields as a Lean structure `DTState`, and each public
operation as a pure function from state to state (returning its result
value alongside the new state where the operation has one).  JavaScript
numbers used as counters (`clipTextEnd`, command fire offsets) are embedded
as `Nat`; the selected-option index, which the source initializes to `-1`,
is embedded as `Int`.  JavaScript string truthiness (`if (this.dialogueText)`)
is embedded as a non-emptiness test.  Operations that can throw a
`TypeError` in the source (member access on `null`/`undefined`) return
`Except String _`.
-/

namespace DialogueTree

/-- A queued command call, as pushed by `goToNextDialogueLine` in the
Command branch: `{ cmd: command[0], params: command, time: ... }`. -/
structure CommandCall where
  cmd : String
  params : List String
  time : Nat
deriving DecidableEq, Repr

/-- A pending host timer scheduled by `setTimeout` inside `isCommandCalled`
for a `wait` command.  `delay` is the parsed `parseInt(call.params[1], 10)`
(`none` models `NaN`), `index` is the queue index captured by the closure
and spliced out when the timer fires. -/
structure PendingTimer where
  delay : Option Int
  index : Nat
deriving DecidableEq, Repr

/-- A node pulled from the external interpreter's lazy sequence:
`bondage.TextResult`, `bondage.OptionsResult` or `bondage.CommandResult`. -/
inductive DialogueNode where
  | text (txt : String) (tags : List String) (title : String) (body : String)
  | options (opts : List String)
  | command (txt : String)
deriving DecidableEq, Repr

mutual
/-- JavaScript values flowing through the persistence codec (`saveState` /
`loadState`).  Mirrors the JSON-compatible shape of the PersistedState
payload: primitives and string-keyed objects.  Numbers are embedded by
their decimal text (`num`), which keeps the codec exact without modelling
floating point; arrays do not occur in the PersistedState shape and are
omitted.  `undef` is JavaScript's `undefined` (the result of reading an
absent property). -/
inductive JsValue where
  | undef
  | null
  | b (x : Bool)
  | num (digits : String)
  | s (str : String)
  | obj (ms : JsMembers)
deriving DecidableEq

/-- Ordered member list of a JavaScript object. -/
inductive JsMembers where
  | nil
  | cons (key : String) (val : JsValue) (rest : JsMembers)
deriving DecidableEq
end

/-- The external interpreter (`bondage.Runner`) as the core sees it:
its known node titles (`Object.keys(runner.yarnNodes)`), the node
sequence produced by `runner.run(nodeId)` (embedded as the finite list of
nodes the lazy generator will yield), its variable table
(`runner.variables.data`) and its visited-title table (`runner.visited`). -/
structure Runner where
  yarnNodes : List String
  sequences : String → List DialogueNode
  variablesData : JsValue
  visited : JsValue

/-- The mutable module-level fields of `gdjs.dialogueTree`. -/
structure DTState where
  runner : Runner
  dialogueIsRunning : Bool
  dialogueData : Option DialogueNode
  dialogueDataType : String
  dialogueText : String
  clipTextEnd : Nat
  commandCalls : List CommandCall
  commandParameters : List String
  pauseScrolling : Bool
  options : List String
  optionsCount : Nat
  selectedOption : Int
  selectedOptionUpdated : Bool
  dialogueBranchTitle : String
  dialogueBranchBody : String
  dialogueBranchTags : List String
  tagParameters : List String
  dialogue : List DialogueNode
  pendingTimers : List PendingTimer

/-- `gdjs.dialogueTree.stopRunningDialogue`: clears the running flag, the
current node, the line text and the clip cursor. -/
def stopRunningDialogue (s : DTState) : DTState :=
  { s with dialogueIsRunning := false, dialogueData := none,
           dialogueText := "", clipTextEnd := 0 }

/-- `gdjs.dialogueTree.scrollClippedText`: no-op when scrolling is paused
or no dialogue is running; otherwise, when the line text is non-empty
(JavaScript truthiness of `this.dialogueText`), advances `clipTextEnd`
by one.  The source has no clamp. -/
def scrollClippedText (s : DTState) : DTState :=
  if s.pauseScrolling || !s.dialogueIsRunning then s
  else if s.dialogueText = "" then s
  else { s with clipTextEnd := s.clipTextEnd + 1 }

/-- `gdjs.dialogueTree.completeClippedTextScrolling`: no-op when paused,
not running, or the line text is empty; otherwise sets `clipTextEnd` to
the full text length. -/
def completeClippedTextScrolling (s : DTState) : DTState :=
  if s.pauseScrolling || !s.dialogueIsRunning || s.dialogueText = "" then s
  else { s with clipTextEnd := s.dialogueText.length }

/-- `gdjs.dialogueTree.hasClippedScrollingCompleted`. -/
def hasClippedScrollingCompleted (s : DTState) : Bool :=
  if s.dialogueData.isSome && s.dialogueText.length ≠ 0 then
    decide (s.dialogueText.length ≤ s.clipTextEnd)
  else false

/-- `gdjs.dialogueTree.getClippedLineText`: the substring of the line up to
the clip cursor (empty when the line text is empty). -/
def getClippedLineText (s : DTState) : String :=
  if s.dialogueText.length ≠ 0 then
    (s.dialogueText.toList.take s.clipTextEnd).asString
  else ""

/-- Longest leading run of decimal digits. -/
def leadingDigits : List Char → List Char
  | [] => []
  | c :: cs => if c.isDigit then c :: leadingDigits cs else []

/-- Numeric value of a digit run. -/
def digitsToNat (ds : List Char) : Nat :=
  ds.foldl (fun acc c => acc * 10 + (c.toNat - '0'.toNat)) 0

/-- JavaScript `parseInt(str, 10)`: skip leading whitespace, accept an
optional sign, then the longest run of decimal digits; `NaN` (here `none`)
when no digit follows. -/
def jsParseInt (str : String) : Option Int :=
  let cs := str.toList.dropWhile (fun c => c = ' ' || c = '\t' || c = '\n' || c = '\r')
  match cs with
  | '-' :: rest =>
      let ds := leadingDigits rest
      if ds.isEmpty then none else some (-(digitsToNat ds : Int))
  | '+' :: rest =>
      let ds := leadingDigits rest
      if ds.isEmpty then none else some ((digitsToNat ds : Int))
  | _ =>
      let ds := leadingDigits cs
      if ds.isEmpty then none else some ((digitsToNat ds : Int))

/-- Outcome of the `commandCalls.some(...)` scan inside `isCommandCalled`:
the first matching entry (queue index and its `params`), if any, and the
`setTimeout` requests emitted by eligible `wait` entries seen before the
scan stopped. -/
structure ScanOut where
  matched : Option (Nat × List String)
  waits : List PendingTimer
deriving DecidableEq, Repr

/-- The `commandCalls.some(function(call, index) ...)` scan of
`isCommandCalled`, over the queue with running index `i`.  An entry whose
fire offset is still ahead of `clipEnd` is skipped.  An eligible `wait`
entry (while `clipEnd` differs from the full text length) emits a pause /
timer side effect but does not by itself stop the scan; an entry whose
`cmd` equals the polled `command` stops the scan. -/
def scanCommandCalls (command : String) (clipEnd textLen : Nat) :
    List CommandCall → Nat → ScanOut
  | [], _ => ⟨none, []⟩
  | c :: rest, i =>
    if clipEnd < c.time then scanCommandCalls command clipEnd textLen rest (i + 1)
    else
      let ws : List PendingTimer :=
        if c.cmd = "wait" ∧ clipEnd ≠ textLen then
          [⟨(c.params.get? 1).bind jsParseInt, i⟩]
        else []
      if c.cmd = command then ⟨some (i, c.params), ws⟩
      else
        let r := scanCommandCalls command clipEnd textLen rest (i + 1)
        ⟨r.matched, ws ++ r.waits⟩

/-- `gdjs.dialogueTree.isCommandCalled(command)`: short-circuits to
`false` when scrolling is paused (the source's second short-circuit,
`!commandCalls`, only fires when the queue field is still `undefined`;
here the queue field always exists, and scanning an empty list returns
`false` exactly as `[].some(...)` does); otherwise scans the queue.
Eligible
`wait` entries set the pause flag and schedule a host timer
(`setTimeout` with delay `parseInt(call.params[1], 10)`); the first entry
whose `cmd` equals `command` is recorded into `commandParameters`,
spliced out of the queue, and reported as a match. -/
def isCommandCalled (command : String) (s : DTState) : Bool × DTState :=
  if s.pauseScrolling then (false, s)
  else
    let r := scanCommandCalls command s.clipTextEnd s.dialogueText.length s.commandCalls 0
    let s1 := { s with pauseScrolling := !r.waits.isEmpty,
                       pendingTimers := s.pendingTimers ++ r.waits }
    match r.matched with
    | some (i, ps) =>
        (true, { s1 with commandParameters := ps,
                         commandCalls := s1.commandCalls.eraseIdx i })
    | none => (false, s1)

/-- Firing of the `k`-th pending `setTimeout` callback scheduled by a
`wait` entry: clears the pause flag and splices the captured queue index
(`commandCalls.splice(index, 1)`, a no-op when out of range). -/
def fireTimer (k : Nat) (s : DTState) : DTState :=
  match s.pendingTimers.get? k with
  | none => s
  | some t =>
      { s with pauseScrolling := false,
               commandCalls := s.commandCalls.eraseIdx t.index,
               pendingTimers := s.pendingTimers.eraseIdx k }

/-- JavaScript truthiness of `node.select`: only an `OptionsResult` has a
`select` method. -/
def jsSelectTruthy : DialogueNode → Bool
  | .options _ => true
  | _ => false

/-- `gdjs.dialogueTree._cycledOptionIndex`: the two sequential bound
checks of the source (first fold overflow to 0, then underflow to
`length - 1`). -/
def cycledOptionIndex (s : DTState) (optionIndex : Int) : Int :=
  let i1 := if (s.options.length : Int) ≤ optionIndex then 0 else optionIndex
  if i1 < 0 then (s.options.length : Int) - 1 else i1

/-- `gdjs.dialogueTree._normalizedOptionIndex`. -/
def normalizedOptionIndex (s : DTState) (optionIndex : Int) : Int :=
  let i1 := if (s.options.length : Int) ≤ optionIndex then (s.options.length : Int) - 1
            else optionIndex
  if i1 < 0 then 0 else i1

/-- `gdjs.dialogueTree.selectNextOption`: reading `this.dialogueData.select`
throws a `TypeError` when `dialogueData` is `null`/`undefined`; when the
current node has a `select` method, increments the selected option and
cycles it, marking the selection dirty; otherwise a no-op. -/
def selectNextOption (s : DTState) : Except String DTState :=
  match s.dialogueData with
  | none => Except.error "TypeError: cannot read select of null"
  | some d =>
    if jsSelectTruthy d then
      Except.ok { s with
        selectedOption := cycledOptionIndex s (s.selectedOption + 1),
        selectedOptionUpdated := true }
    else Except.ok s

/-- `gdjs.dialogueTree.selectPreviousOption`. -/
def selectPreviousOption (s : DTState) : Except String DTState :=
  match s.dialogueData with
  | none => Except.error "TypeError: cannot read select of null"
  | some d =>
    if jsSelectTruthy d then
      Except.ok { s with
        selectedOption := cycledOptionIndex s (s.selectedOption - 1),
        selectedOptionUpdated := true }
    else Except.ok s

/-- `gdjs.dialogueTree.getSelectedOption`: returns the stored
`selectedOption` unchanged when the current node has a `select` method,
`0` otherwise; throws when `dialogueData` is `null`/`undefined`. -/
def getSelectedOption (s : DTState) : Except String Int :=
  match s.dialogueData with
  | none => Except.error "TypeError: cannot read select of null"
  | some d => if jsSelectTruthy d then Except.ok s.selectedOption else Except.ok 0

/-- `gdjs.dialogueTree.hasSelectedOptionChanged`: edge-triggered read of
the dirty flag; when it fires it also rewrites a stored `-1` selection
to `0`. -/
def hasSelectedOptionChanged (s : DTState) : Bool × DTState :=
  if s.selectedOptionUpdated then
    (true, { s with selectedOptionUpdated := false,
                    selectedOption := if s.selectedOption = -1 then 0 else s.selectedOption })
  else (false, s)

/-- `gdjs.dialogueTree.isRunning`: lazily clears the running flag when no
node is pending, a non-empty line is loaded, and the clip cursor has
reached the end of the line; returns the (possibly updated) flag. -/
def isRunning (s : DTState) : Bool × DTState :=
  if s.dialogueIsRunning = true ∧ s.dialogueData = none ∧ s.dialogueText ≠ "" ∧
      s.dialogueText.length ≤ s.clipTextEnd then
    (false, { s with dialogueIsRunning := false })
  else (s.dialogueIsRunning, s)

/-- `gdjs.dialogueTree.isDialogueLineType(type)`: when some queued `wait`
entry has been passed by the clip cursor (`clipTextEnd > call.time`),
returns the negation of the pause flag regardless of `type`; otherwise
compares `type` with the current line type while running, and returns
`false` when not running. -/
def isDialogueLineType (t : String) (s : DTState) : Bool :=
  if s.commandCalls.any (fun c => decide (c.time < s.clipTextEnd) && (c.cmd == "wait")) then
    !s.pauseScrolling
  else if s.dialogueIsRunning then s.dialogueDataType == t
  else false

/-- `gdjs.dialogueTree.hasDialogueBranch(branchName)`:
`Object.keys(runner.yarnNodes).some(node => node === branchName)`. -/
def hasDialogueBranch (s : DTState) (branchName : String) : Bool :=
  s.runner.yarnNodes.any (fun node => node == branchName)

/-- Fuel-driven embedding of the recursive `gdjs.dialogueTree.goToNextDialogueLine`.
Each recursive call of the source is preceded by pulling one node from
the sequence, so the recursion depth is bounded by the sequence length;
the fuel supplied by `goToNextDialogueLine` always exceeds that bound. -/
def goToNextAux : Nat → DTState → DTState
  | 0, s => s
  | fuel + 1, s =>
    if s.pauseScrolling || !s.dialogueIsRunning then s
    else
      let s1 : DTState := { s with optionsCount := 0, selectedOption := -1,
                                   selectedOptionUpdated := false }
      let s2 : DTState :=
        match s1.dialogueData with
        | some (.text txt tags title body) =>
          let sA : DTState :=
            if s1.dialogueDataType = "options" ∨ s1.dialogueDataType = "text" ∨
                s1.dialogueDataType = "" then
              { s1 with clipTextEnd := 0, dialogueText := txt, commandCalls := [] }
            else { s1 with dialogueText := s1.dialogueText ++ txt }
          { sA with dialogueDataType := "text", dialogueBranchTags := tags,
                    dialogueBranchTitle := title, dialogueBranchBody := body,
                    dialogueData := sA.dialogue.head?, dialogue := sA.dialogue.tail }
        | some (.options opts) =>
          { s1 with dialogueDataType := "options", optionsCount := opts.length,
                    options := opts, selectedOptionUpdated := true }
        | some (.command txt) =>
          let command := txt.splitOn " "
          let newCall : CommandCall :=
            { cmd := command.headD "", params := command,
              time := s1.dialogueText.length +
                (if s1.commandCalls ≠ [] ∧
                    (s1.commandCalls.getLast?.map CommandCall.cmd) = some "wait" then 1
                 else 0) }
          let sA : DTState := { s1 with
            dialogueDataType := "command",
            commandCalls := s1.commandCalls ++ [newCall],
            dialogueData := s1.dialogue.head?, dialogue := s1.dialogue.tail }
          goToNextAux fuel sA
        | none => { s1 with dialogueDataType := "unknown" }
      match s2.dialogueData with
      | some (.command _) => goToNextAux fuel { s2 with dialogueDataType := "command" }
      | _ => s2

/-- `gdjs.dialogueTree.goToNextDialogueLine`. -/
def goToNextDialogueLine (s : DTState) : DTState :=
  goToNextAux (2 * s.dialogue.length + 4) s

/-- `gdjs.dialogueTree.startFrom(startDialogueNode)`: a silent no-op when
`hasDialogueBranch` fails; otherwise resets the per-session fields, begins
the interpreter sequence at the branch, pulls the first node, raises the
running flag and runs the line-advance algorithm. -/
def startFrom (startDialogueNode : String) (s : DTState) : DTState :=
  if hasDialogueBranch s startDialogueNode then
    let seq := s.runner.sequences startDialogueNode
    goToNextDialogueLine { s with
      optionsCount := 0, options := [],
      dialogueBranchTitle := "", dialogueBranchBody := "",
      dialogueBranchTags := [], tagParameters := [],
      dialogue := seq.tail, dialogueData := seq.head?,
      dialogueDataType := "", dialogueText := "", clipTextEnd := 0,
      commandCalls := [], commandParameters := [],
      pauseScrolling := false, dialogueIsRunning := true }
  else s

/-! ### Persistence codec (`saveState` / `loadState`)

`saveState` hands `{ variables: runner.variables.data, visited: runner.visited }`
to `gdjs.evtTools.network._objectToVariable`, and `loadState` reads the
variable back through `variableStructureToJSON` and `JSON.parse`.  The two
network helpers are not among the sources; per the spec the external
variable sink is a structured, JSON-compatible read/write target, so the
sink is embedded as the JSON text it carries, written by a printer and
read back by a parser for the JSON fragment the PersistedState shape uses
(primitives and string-keyed objects). -/

/-- The double-quote character. -/
def qChar : Char := Char.ofNat 34

/-- The opening-brace character. -/
def lbChar : Char := Char.ofNat 123

/-- The closing-brace character. -/
def rbChar : Char := Char.ofNat 125

mutual
/-- JSON text of a `JsValue` (as a character list).  `undef` never appears
in a well-formed payload (see `JsValue.wf`) and is rendered as `null`. -/
def jsonPrintL : JsValue → List Char
  | .undef => "null".toList
  | .null => "null".toList
  | .b true => "true".toList
  | .b false => "false".toList
  | .num d => d.toList
  | .s str => qChar :: (str.toList ++ [qChar])
  | .obj ms => lbChar :: (jsonPrintMembersL ms ++ [rbChar])
/-- JSON text of an object's members, comma-separated. -/
def jsonPrintMembersL : JsMembers → List Char
  | .nil => []
  | .cons k v .nil => qChar :: (k.toList ++ (qChar :: ':' :: jsonPrintL v))
  | .cons k v (.cons k2 v2 r) =>
      qChar :: (k.toList ++ (qChar :: ':' :: (jsonPrintL v ++
        (',' :: jsonPrintMembersL (.cons k2 v2 r)))))
end

/-- JSON text of a `JsValue` as a string. -/
def jsonPrint (v : JsValue) : String :=
  (jsonPrintL v).asString

/-- Body of a JSON string after its opening quote: the characters up to
the next quote, and the input following that quote. -/
def parseStringRest (cs : List Char) : Option (List Char × List Char) :=
  let content := cs.takeWhile (fun c => c ≠ qChar)
  match cs.dropWhile (fun c => c ≠ qChar) with
  | [] => none
  | _ :: rest => some (content, rest)

/-- A JSON number's characters: an optional minus sign followed by a
non-empty run of digits. -/
def parseNumberChars (cs : List Char) : Option (List Char × List Char) :=
  match cs with
  | [] => none
  | c :: rest =>
    if c = '-' then
      let ds := leadingDigits rest
      if ds.isEmpty then none else some ('-' :: ds, rest.drop ds.length)
    else
      let ds := leadingDigits (c :: rest)
      if ds.isEmpty then none else some (ds, (c :: rest).drop ds.length)

mutual
/-- Recursive-descent parser for the JSON fragment used by the
PersistedState payload.  The fuel bounds the nesting recursion; the
top-level wrapper supplies more fuel than any input can consume. -/
def parseJsonVal : Nat → List Char → Except String (JsValue × List Char)
  | 0, _ => Except.error "out of fuel"
  | _ + 1, [] => Except.error "unexpected end of input"
  | fuel + 1, c :: cs =>
    if c = 'n' then
      match cs with
      | 'u' :: 'l' :: 'l' :: rest => Except.ok (JsValue.null, rest)
      | _ => Except.error "bad literal"
    else if c = 't' then
      match cs with
      | 'r' :: 'u' :: 'e' :: rest => Except.ok (JsValue.b true, rest)
      | _ => Except.error "bad literal"
    else if c = 'f' then
      match cs with
      | 'a' :: 'l' :: 's' :: 'e' :: rest => Except.ok (JsValue.b false, rest)
      | _ => Except.error "bad literal"
    else if c = qChar then
      match parseStringRest cs with
      | some (content, rest) => Except.ok (JsValue.s content.asString, rest)
      | none => Except.error "unterminated string"
    else if c = lbChar then
      match cs with
      | d :: _ =>
        if d = rbChar then Except.ok (JsValue.obj JsMembers.nil, cs.tail)
        else
          match parseJsonMembers fuel cs with
          | Except.ok (ms, rest2) => Except.ok (JsValue.obj ms, rest2)
          | Except.error e => Except.error e
      | [] => Except.error "unterminated object"
    else
      match parseNumberChars (c :: cs) with
      | some (numCs, rest) => Except.ok (JsValue.num numCs.asString, rest)
      | none => Except.error "unexpected character"
/-- Members of a JSON object, after its opening brace; consumes the
closing brace. -/
def parseJsonMembers : Nat → List Char → Except String (JsMembers × List Char)
  | 0, _ => Except.error "out of fuel"
  | fuel + 1, cs =>
    match cs with
    | c :: cs1 =>
      if c = qChar then
        match parseStringRest cs1 with
        | some (key, cs2) =>
          match cs2 with
          | ':' :: cs3 =>
            match parseJsonVal fuel cs3 with
            | Except.ok (v, cs4) =>
              match cs4 with
              | ',' :: cs5 =>
                match parseJsonMembers fuel cs5 with
                | Except.ok (ms, rest) =>
                    Except.ok (JsMembers.cons key.asString v ms, rest)
                | Except.error e => Except.error e
              | d :: cs5 =>
                if d = rbChar then
                  Except.ok (JsMembers.cons key.asString v JsMembers.nil, cs5)
                else Except.error "expected comma or closing brace"
              | [] => Except.error "unexpected end in object"
            | Except.error e => Except.error e
          | _ => Except.error "expected colon"
        | none => Except.error "unterminated key"
      else Except.error "expected key"
    | [] => Except.error "unexpected end in object"
end

/-- The continuation of `parseJsonMembers` after a member's value: a comma
continues with more members, a closing brace ends the object. -/
def parseMemberDelim (fuel : Nat) (key : List Char) (v : JsValue)
    (cs4 : List Char) : Except String (JsMembers × List Char) :=
  match cs4 with
  | ',' :: cs5 =>
    match parseJsonMembers fuel cs5 with
    | Except.ok (ms, rest) => Except.ok (JsMembers.cons key.asString v ms, rest)
    | Except.error e => Except.error e
  | d :: cs5 =>
    if d = rbChar then Except.ok (JsMembers.cons key.asString v JsMembers.nil, cs5)
    else Except.error "expected comma or closing brace"
  | [] => Except.error "unexpected end in object"

/-- The continuation of `parseJsonMembers` after a member's key. -/
def parseMemberTail (fuel : Nat) (key : List Char) (cs2 : List Char) :
    Except String (JsMembers × List Char) :=
  match cs2 with
  | ':' :: cs3 =>
    match parseJsonVal fuel cs3 with
    | Except.ok (v, cs4) => parseMemberDelim fuel key v cs4
    | Except.error e => Except.error e
  | _ => Except.error "expected colon"

/-- JavaScript `JSON.parse` over the PersistedState JSON fragment: parses
one value and requires the whole input to be consumed. -/
def jsonParse (str : String) : Except String JsValue :=
  match parseJsonVal (str.toList.length + 1) str.toList with
  | Except.ok (v, []) => Except.ok v
  | Except.ok (_, _ :: _) => Except.error "unexpected trailing input"
  | Except.error e => Except.error e

/-- Last-wins member lookup, matching how `JSON.parse` builds objects
(later duplicate keys override earlier ones) and property access reads
the stored value. -/
def JsMembers.lookupLast : JsMembers → String → Option JsValue
  | .nil, _ => none
  | .cons k v r, key =>
    match JsMembers.lookupLast r key with
    | some v2 => some v2
    | none => if k = key then some v else none

/-- JavaScript member access `v[key]`: throws a `TypeError` on `null` and
`undefined`, yields the property (or `undefined`) on objects, and
`undefined` on boxed primitives. -/
def jsMember (v : JsValue) (key : String) : Except String JsValue :=
  match v with
  | .undef => Except.error "TypeError: cannot read properties of undefined"
  | .null => Except.error "TypeError: cannot read properties of null"
  | .obj ms => Except.ok ((ms.lookupLast key).getD JsValue.undef)
  | _ => Except.ok JsValue.undef

/-- `gdjs.dialogueTree.saveState(outputVariable)`: writes
`{ variables: runner.variables.data, visited: runner.visited }` out to the
external variable sink.  Modelled from the spec: `_objectToVariable` and
the host variable type are outside the sources; the sink is embedded as
the JSON text of the stored structure. -/
def saveState (r : Runner) : String :=
  jsonPrint (JsValue.obj (JsMembers.cons "variables" r.variablesData
    (JsMembers.cons "visited" r.visited JsMembers.nil)))

/-- `gdjs.dialogueTree.loadState(inputVariable)`: parses the sink's text,
then assigns `runner.visited = loadedState.visited` followed by
`runner.variables.data = loadedState.variables`.  The `try` block catches
a JSON syntax error (leaving both tables untouched) and a `TypeError`
from member access on a `null` parse result; assignments already executed
before a throw remain in place.  Modelled from the spec:
`variableStructureToJSON` is outside the sources; the sink is embedded as
its JSON text. -/
def loadState (r : Runner) (input : String) : Runner :=
  match jsonParse input with
  | Except.error _ => r
  | Except.ok v =>
    match jsMember v "visited" with
    | Except.error _ => r
    | Except.ok vis =>
      match jsMember v "variables" with
      | Except.error _ => { r with visited := vis }
      | Except.ok vars => { r with visited := vis, variablesData := vars }

/-- Characters that need no JSON string escaping. -/
def okStringChar (c : Char) : Bool :=
  decide (31 < c.toNat) && !(c == qChar) && !(c == '\\')

/-- Decimal-number text: an optional minus sign, then a non-empty digit
run. -/
def okNumChars (cs : List Char) : Bool :=
  match cs with
  | [] => false
  | c :: ds =>
    if c = '-' then !ds.isEmpty && ds.all Char.isDigit
    else (c :: ds).all Char.isDigit

/-- Decimal-number text, as a string. -/
def okNumString (d : String) : Bool :=
  okNumChars d.toList

mutual
/-- Well-formed JSON-compatible payload: no `undefined`, escape-free
strings and keys, decimal number text. -/
def JsValue.wf : JsValue → Bool
  | .undef => false
  | .null => true
  | .b _ => true
  | .num d => okNumString d
  | .s str => str.toList.all okStringChar
  | .obj ms => JsMembers.wf ms
/-- Well-formedness of object members. -/
def JsMembers.wf : JsMembers → Bool
  | .nil => true
  | .cons k v r => k.toList.all okStringChar && JsValue.wf v && JsMembers.wf r
end

mutual
/-- Fuel sufficient for `parseJsonVal` on this value's JSON text. -/
def costV : JsValue → Nat
  | .obj ms => costM ms + 1
  | _ => 1
/-- Fuel sufficient for `parseJsonMembers` on these members' JSON text. -/
def costM : JsMembers → Nat
  | .nil => 1
  | .cons _ v r => max (costV v) (costM r) + 1
end

/-- The continuation after a printed number must not begin with a digit
(in printed JSON a number is always followed by a separator or the end
of input). -/
def noLeadingDigit : List Char → Prop
  | [] => True
  | c :: _ => c.isDigit = false

/-! ### Traces of caller-driven operations

The game loop drives the runtime by interleaving scroll ticks, command
polls and (asynchronously) the firing of `wait` timers.  A trace is a
list of such operations, run left to right. -/

/-- One caller-driven operation: a scroll tick, a poll
`isCommandCalled(name)` (the polled name is fixed by the run), or the
firing of the `k`-th pending `wait` timer. -/
inductive DOp where
  | tick
  | poll
  | fire (k : Nat)
deriving DecidableEq, Repr

/-- Apply one operation to the state (dropping the poll's result). -/
def stepOp (name : String) (s : DTState) : DOp → DTState
  | .tick => scrollClippedText s
  | .poll => (isCommandCalled name s).2
  | .fire k => fireTimer k s

/-- Run a trace of operations. -/
def runOps (name : String) (s : DTState) : List DOp → DTState
  | [] => s
  | op :: ops => runOps name (stepOp name s op) ops

/-- Number of polls in the trace that return `true`. -/
def pollTrueCount (name : String) (s : DTState) : List DOp → Nat
  | [] => 0
  | op :: ops =>
      (if op = DOp.poll ∧ (isCommandCalled name s).1 = true then 1 else 0) +
      pollTrueCount name (stepOp name s op) ops

/-- Iterated scroll ticks. -/
def iterateScroll : Nat → DTState → DTState
  | 0, s => s
  | n + 1, s => iterateScroll n (scrollClippedText s)

/-- Iterated `selectNextOption`, propagating a thrown `TypeError`. -/
def iterateSelectNext : Nat → DTState → Except String DTState
  | 0, s => Except.ok s
  | n + 1, s =>
    match selectNextOption s with
    | Except.ok s2 => iterateSelectNext n s2
    | Except.error e => Except.error e

/-! ### Concrete sample states -/

/-- A runner with one known branch and empty tables. -/
def sampleRunner : Runner :=
  { yarnNodes := ["Start"], sequences := fun _ => [],
    variablesData := JsValue.null, visited := JsValue.null }

/-- A quiescent state (no session ever started or a stopped session). -/
def baseState : DTState :=
  { runner := sampleRunner, dialogueIsRunning := false, dialogueData := none,
    dialogueDataType := "", dialogueText := "", clipTextEnd := 0,
    commandCalls := [], commandParameters := [], pauseScrolling := false,
    options := [], optionsCount := 0, selectedOption := -1,
    selectedOptionUpdated := false, dialogueBranchTitle := "",
    dialogueBranchBody := "", dialogueBranchTags := [], tagParameters := [],
    dialogue := [], pendingTimers := [] }

/-- A running one-character Text line, fully scrolled. -/
def tinyLineState : DTState :=
  { baseState with dialogueIsRunning := true, dialogueDataType := "text",
                   dialogueText := "a", clipTextEnd := 0 }

/-- A running Options line with two candidates and no selection yet
(`selectedOption` is `-1`, exactly as `goToNextDialogueLine` leaves it). -/
def optionsState : DTState :=
  { baseState with dialogueIsRunning := true,
                   dialogueData := some (DialogueNode.options ["Yes", "No"]),
                   dialogueDataType := "options", options := ["Yes", "No"],
                   optionsCount := 2, selectedOption := -1,
                   selectedOptionUpdated := true }

/-- A running Text line `"Hi there"` scrolled to offset 3, with a
`<<wait 500>>` command queued at fire offset 3. -/
def waitLineState : DTState :=
  { baseState with dialogueIsRunning := true, dialogueDataType := "text",
                   dialogueText := "Hi there", clipTextEnd := 3,
                   commandCalls := [⟨"wait", ["wait", "500"], 3⟩] }

/-- A running line `"hello"`, not yet scrolled, with a single command
`go` queued at fire offset 2. -/
def singleCommandState : DTState :=
  { baseState with dialogueIsRunning := true, dialogueDataType := "text",
                   dialogueText := "hello", clipTextEnd := 0,
                   commandCalls := [⟨"go", ["go"], 2⟩] }

/-- Invariant tracked along a trace for the single-queued-command
scenario: either the entry is still queued (no successful poll yet,
scroll unpaused, no pending timer), or it has been consumed by exactly
one successful poll, which captured its parameters. -/
def c1Inv (e : CommandCall) (s : DTState) (c : Nat) : Prop :=
  (c = 0 ∧ s.commandCalls = [e] ∧ s.pauseScrolling = false ∧ s.pendingTimers = []) ∨
  (c = 1 ∧ s.commandCalls = [] ∧ s.commandParameters = e.params)

/-- The JSON text of an empty object. -/
def emptyObjText : String := String.mk [lbChar, rbChar]

/-- A runner with non-trivial, well-formed variable and visited tables. -/
def tableRunner : Runner :=
  { yarnNodes := ["Start"], sequences := fun _ => [],
    variablesData := JsValue.obj (JsMembers.cons "gold" (JsValue.num "12")
      (JsMembers.cons "name" (JsValue.s "Ada") JsMembers.nil)),
    visited := JsValue.obj (JsMembers.cons "Start" (JsValue.b true) JsMembers.nil) }

/-! ### Basic scrolling lemmas -/

theorem scrollClippedText_clip_cases (s : DTState) :
    scrollClippedText s = s ∨
    (scrollClippedText s).clipTextEnd = s.clipTextEnd + 1 := by
  unfold scrollClippedText
  split
  · exact Or.inl rfl
  · split
    · exact Or.inl rfl
    · exact Or.inr rfl

theorem clipTextEnd_le_scrollClippedText (s : DTState) :
    s.clipTextEnd ≤ (scrollClippedText s).clipTextEnd := by
  rcases scrollClippedText_clip_cases s with h | h
  · rw [h]
  · omega

theorem clipTextEnd_le_iterateScroll :
    ∀ (n : Nat) (s : DTState), s.clipTextEnd ≤ (iterateScroll n s).clipTextEnd
  | 0, _ => le_refl _
  | n + 1, s =>
      le_trans (clipTextEnd_le_scrollClippedText s)
        (clipTextEnd_le_iterateScroll n (scrollClippedText s))

theorem iterateScroll_add :
    ∀ (a b : Nat) (s : DTState),
      iterateScroll (a + b) s = iterateScroll b (iterateScroll a s)
  | 0, b, s => by simp [iterateScroll, Nat.zero_add]
  | a + 1, b, s => by
      have h : a + 1 + b = (a + b) + 1 := by omega
      rw [h]
      show iterateScroll (a + b) (scrollClippedText s) =
        iterateScroll b (iterateScroll a (scrollClippedText s))
      exact iterateScroll_add a b (scrollClippedText s)

theorem completeClippedTextScrolling_idem (s : DTState) :
    completeClippedTextScrolling (completeClippedTextScrolling s) =
      completeClippedTextScrolling s := by
  by_cases hc : (s.pauseScrolling || !s.dialogueIsRunning ||
      decide (s.dialogueText = "")) = true
  · simp [completeClippedTextScrolling, hc]
  · simp [completeClippedTextScrolling, hc]

/-- C2: counterexample to the claim as stated.  On a running, unpaused
one-character line (`len(fullText) = 1`) starting at `clipTextEnd = 0`,
two scroll ticks drive `clipTextEnd` to `2`, strictly beyond the text
length: the source has no clamp, so clipEnd can exceed `len(fullText)`. -/
theorem c2_clip_exceeds_length_counterexample :
    tinyLineState.clipTextEnd = 0 ∧ tinyLineState.dialogueText.length = 1 ∧
    (iterateScroll 2 tinyLineState).clipTextEnd = 2 :=
  ⟨rfl, rfl, rfl⟩

/-- C2 (amended): for any sequence of scroll ticks on one Text line,
`clipTextEnd` is monotonically non-decreasing; each tick is a no-op if
scrolling is paused, no session is running, or the line text is empty,
and otherwise advances `clipTextEnd` by exactly 1 **without clamping**
(so `clipTextEnd` may exceed `len(fullText)`); `completeLine` is
idempotent. -/
theorem c2_scroll_monotonicity_amended :
    (∀ s : DTState, scrollClippedText s = s ∨
        (scrollClippedText s).clipTextEnd = s.clipTextEnd + 1) ∧
    (∀ s : DTState, (s.pauseScrolling = true ∨ s.dialogueIsRunning = false ∨
        s.dialogueText = "") → scrollClippedText s = s) ∧
    (∀ s : DTState, s.pauseScrolling = false → s.dialogueIsRunning = true →
        s.dialogueText ≠ "" →
        (scrollClippedText s).clipTextEnd = s.clipTextEnd + 1) ∧
    (∀ (s : DTState) (m n : Nat), m ≤ n →
        (iterateScroll m s).clipTextEnd ≤ (iterateScroll n s).clipTextEnd) ∧
    (∀ s : DTState, completeClippedTextScrolling (completeClippedTextScrolling s) =
        completeClippedTextScrolling s) := by
  refine ⟨scrollClippedText_clip_cases, ?_, ?_, ?_, ?_⟩
  · intro s h
    unfold scrollClippedText
    rcases h with h | h | h <;> simp [h]
  · intro s h1 h2 h3
    unfold scrollClippedText
    simp [h1, h2, h3]
  · intro s m n hmn
    have h : n = m + (n - m) := by omega
    rw [h, iterateScroll_add]
    exact clipTextEnd_le_iterateScroll (n - m) (iterateScroll m s)
  · exact completeClippedTextScrolling_idem

/-- C2 (amended) witness at a concrete line and tick counts. -/
theorem c2_scroll_monotonicity_amended_witness :
    (iterateScroll 1 tinyLineState).clipTextEnd ≤
      (iterateScroll 3 tinyLineState).clipTextEnd :=
  c2_scroll_monotonicity_amended.2.2.2.1 tinyLineState 1 3 (by omega)

/-- C4: `startFrom` on a node id that does not name a known branch is a
silent no-op: the state is fully unchanged (line text, clip cursor,
options, command queue, branch metadata all included), and if the running
flag was false it stays false. -/
theorem c4_startFrom_unknown_branch_noop (s : DTState) (nodeId : String)
    (h : hasDialogueBranch s nodeId = false) :
    startFrom nodeId s = s ∧
    (s.dialogueIsRunning = false → (startFrom nodeId s).dialogueIsRunning = false) := by
  have he : startFrom nodeId s = s := by
    unfold startFrom
    simp [h]
  exact ⟨he, fun hr => by rw [he]; exact hr⟩

/-- C4 witness: a concrete unknown id on a concrete idle state. -/
theorem c4_startFrom_unknown_branch_noop_witness :
    hasDialogueBranch baseState "Missing" = false ∧
    startFrom "Missing" baseState = baseState := by
  have h : hasDialogueBranch baseState "Missing" = false := by decide
  exact ⟨h, (c4_startFrom_unknown_branch_noop baseState "Missing" h).1⟩

/-- C5: `isRunning` returns the running flag, which it lazily clears
exactly when a session was running with no node pending
(`dialogueData` empty), a non-empty Text line loaded, and the clip
cursor at or past the end of that line; no other field changes. -/
theorem c5_isRunning_lazy_terminal (s : DTState) :
    ((isRunning s).1 = true ↔ (s.dialogueIsRunning = true ∧
      ¬(s.dialogueData = none ∧ s.dialogueText ≠ "" ∧
        s.dialogueText.length ≤ s.clipTextEnd))) ∧
    ((isRunning s).2 = { s with dialogueIsRunning := (isRunning s).1 }) ∧
    ((isRunning s).2.dialogueIsRunning ≠ s.dialogueIsRunning ↔
      (s.dialogueIsRunning = true ∧ s.dialogueData = none ∧ s.dialogueText ≠ "" ∧
        s.dialogueText.length ≤ s.clipTextEnd)) := by
  unfold isRunning
  split
  next hcond =>
    obtain ⟨h1, h2, h3, h4⟩ := hcond
    refine ⟨by simp [h1, h2, h3, h4], by simp, ?_⟩
    simp [h1, h2, h3, h4]
  next hcond =>
    refine ⟨?_, ?_, ?_⟩
    · constructor
      · intro h
        exact ⟨h, fun hx => hcond ⟨h, hx.1, hx.2.1, hx.2.2⟩⟩
      · intro h
        exact h.1
    · show s = { s with dialogueIsRunning := s.dialogueIsRunning }
      rfl
    · constructor
      · intro h
        exact absurd rfl h
      · intro h
        exact absurd ⟨h.1, h.2.1, h.2.2.1, h.2.2.2⟩ hcond

/-- C5 witness: at a fully-scrolled, sequence-exhausted concrete line the
read itself clears the flag and returns false. -/
theorem c5_isRunning_lazy_terminal_witness :
    (isRunning { tinyLineState with clipTextEnd := 1 }).1 = false ∧
    (isRunning { tinyLineState with clipTextEnd := 1 }).2.dialogueIsRunning = false := by
  have h := c5_isRunning_lazy_terminal { tinyLineState with clipTextEnd := 1 }
  have hterm : ({ tinyLineState with clipTextEnd := 1 } : DTState).dialogueData = none ∧
      ({ tinyLineState with clipTextEnd := 1 } : DTState).dialogueText ≠ "" ∧
      ({ tinyLineState with clipTextEnd := 1 } : DTState).dialogueText.length ≤
        ({ tinyLineState with clipTextEnd := 1 } : DTState).clipTextEnd := by
    refine ⟨rfl, by decide, by decide⟩
  have hfalse : (isRunning { tinyLineState with clipTextEnd := 1 }).1 = false := by
    cases hb : (isRunning { tinyLineState with clipTextEnd := 1 }).1
    · rfl
    · exact absurd hterm (h.1.mp hb).2
  refine ⟨hfalse, ?_⟩
  rw [h.2.1, hfalse]

/-- C9: the claim (no public operation may propagate an unhandled
exception) is right about the intended design but wrong about the code:
after `stopRunningDialogue` (a reachable state with `dialogueData` null),
`selectNextOption` dereferences `this.dialogueData.select` and throws a
`TypeError` into the host game loop instead of degrading to a no-op. -/
theorem c9_selectNextOption_throws_after_stop (s : DTState) :
    selectNextOption (stopRunningDialogue s) =
      Except.error "TypeError: cannot read select of null" := rfl

/-- C10: whenever some queued `wait` entry has fire offset strictly below
the clip cursor, `isDialogueLineType(t)` returns the negation of the
pause flag for every `t` (ignoring the current node type); otherwise it
compares `t` with the current line type, returning false when not
running. -/
theorem c10_line_type_wait_override (s : DTState) :
    ((∃ c ∈ s.commandCalls, c.cmd = "wait" ∧ c.time < s.clipTextEnd) →
      ∀ t : String, isDialogueLineType t s = !s.pauseScrolling) ∧
    ((¬ ∃ c ∈ s.commandCalls, c.cmd = "wait" ∧ c.time < s.clipTextEnd) →
      ∀ t : String, isDialogueLineType t s =
        if s.dialogueIsRunning then s.dialogueDataType == t else false) := by
  have hany : ((s.commandCalls.any fun c =>
      decide (c.time < s.clipTextEnd) && (c.cmd == "wait")) = true) ↔
      ∃ c ∈ s.commandCalls, c.cmd = "wait" ∧ c.time < s.clipTextEnd := by
    rw [List.any_eq_true]
    constructor
    · rintro ⟨c, hc, hp⟩
      simp at hp
      exact ⟨c, hc, hp.2, hp.1⟩
    · rintro ⟨c, hc, h1, h2⟩
      exact ⟨c, hc, by simp [h1, h2]⟩
  constructor
  · intro h t
    unfold isDialogueLineType
    rw [if_pos (hany.mpr h)]
  · intro h t
    unfold isDialogueLineType
    rw [if_neg (fun hx => h (hany.mp hx))]

/-- C10 witness: with an expired `wait` entry queued, the type check
answers `!pauseScrolling` even for a `t` unequal to the line type. -/
theorem c10_line_type_wait_override_witness :
    isDialogueLineType "options" { waitLineState with clipTextEnd := 4 } = true := by
  have h := (c10_line_type_wait_override { waitLineState with clipTextEnd := 4 }).1
  rw [h ⟨⟨"wait", ["wait", "500"], 3⟩, by decide, rfl, by decide⟩ "options"]
  rfl

/-- C7: counterexample to the claim as stated.  On a freshly presented
Options node (`selectedOption` stored as `-1`), the index-exposing read
`getSelectedOption` returns `-1`, not the claimed normalized `0`. -/
theorem c7_selected_read_counterexample :
    optionsState.selectedOption = -1 ∧
    getSelectedOption optionsState = Except.ok (-1) := ⟨rfl, rfl⟩

/-- C7 (amended): `getSelectedOption` returns the stored index unchanged
(so `-1` before any selection while the current node supports selection)
and `0` when the current node has no selection support; the `-1 → 0`
normalization instead happens inside `hasSelectedOptionChanged`, which
mutates the stored index when it fires; `hasSelectedOptionChanged`
returns true and clears the dirty flag exactly once per change. -/
theorem c7_selection_normalization_amended :
    (∀ (s : DTState) (d : DialogueNode), s.dialogueData = some d →
        jsSelectTruthy d = true → getSelectedOption s = Except.ok s.selectedOption) ∧
    (∀ (s : DTState) (d : DialogueNode), s.dialogueData = some d →
        jsSelectTruthy d = false → getSelectedOption s = Except.ok 0) ∧
    (∀ s : DTState, s.selectedOptionUpdated = true →
        (hasSelectedOptionChanged s).1 = true ∧
        (hasSelectedOptionChanged s).2.selectedOptionUpdated = false ∧
        (hasSelectedOptionChanged s).2.selectedOption =
          (if s.selectedOption = -1 then 0 else s.selectedOption)) ∧
    (∀ s : DTState, s.selectedOptionUpdated = false →
        hasSelectedOptionChanged s = (false, s)) ∧
    (∀ s : DTState, (hasSelectedOptionChanged (hasSelectedOptionChanged s).2).1 = false) := by
  refine ⟨?_, ?_, ?_, ?_, ?_⟩
  · intro s d hd ht
    unfold getSelectedOption
    rw [hd]
    simp [ht]
  · intro s d hd ht
    unfold getSelectedOption
    rw [hd]
    simp [ht]
  · intro s hu
    unfold hasSelectedOptionChanged
    simp [hu]
  · intro s hu
    unfold hasSelectedOptionChanged
    simp [hu]
  · intro s
    by_cases hu : s.selectedOptionUpdated = true
    · simp [hasSelectedOptionChanged, hu]
    · simp at hu
      simp [hasSelectedOptionChanged, hu]

/-- C7 (amended) witness at the fresh Options state. -/
theorem c7_selection_normalization_amended_witness :
    getSelectedOption optionsState = Except.ok optionsState.selectedOption ∧
    (hasSelectedOptionChanged optionsState).1 = true := by
  refine ⟨c7_selection_normalization_amended.1 optionsState
    (DialogueNode.options ["Yes", "No"]) rfl rfl, ?_⟩
  exact (c7_selection_normalization_amended.2.2.1 optionsState rfl).1

/-! ### Option-cycling lemmas -/

theorem cycledOptionIndex_eq_emod (s : DTState) (x : Int)
    (hc : 0 < (s.options.length : Int)) (hl : -1 ≤ x)
    (hu : x ≤ (s.options.length : Int)) :
    cycledOptionIndex s x = x % (s.options.length : Int) := by
  unfold cycledOptionIndex
  by_cases h1 : (s.options.length : Int) ≤ x
  · have hx : x = (s.options.length : Int) := le_antisymm hu h1
    rw [if_pos h1]
    simp [hx]
  · rw [if_neg h1]
    by_cases h2 : x < 0
    · have hx : x = -1 := by omega
      rw [if_pos h2, hx]
      rw [show (-1 : Int) = ((s.options.length : Int) - 1) +
        (-1) * (s.options.length : Int) by ring]
      rw [Int.add_mul_emod_self]
      rw [Int.emod_eq_of_lt (by omega) (by omega)]
    · rw [if_neg h2]
      rw [Int.emod_eq_of_lt (by omega) (by omega)]

theorem selectNextOption_char (s : DTState) (d : DialogueNode)
    (hd : s.dialogueData = some d) (ht : jsSelectTruthy d = true)
    (h0 : 0 ≤ s.selectedOption) (h1 : s.selectedOption < (s.options.length : Int)) :
    selectNextOption s = Except.ok { s with
      selectedOption := (s.selectedOption + 1) % (s.options.length : Int),
      selectedOptionUpdated := true } := by
  unfold selectNextOption
  rw [hd]
  simp only [ht, if_true]
  rw [cycledOptionIndex_eq_emod s (s.selectedOption + 1) (by omega) (by omega) (by omega)]

theorem selectPreviousOption_char (s : DTState) (d : DialogueNode)
    (hd : s.dialogueData = some d) (ht : jsSelectTruthy d = true)
    (h0 : 0 ≤ s.selectedOption) (h1 : s.selectedOption < (s.options.length : Int)) :
    selectPreviousOption s = Except.ok { s with
      selectedOption := (s.selectedOption - 1) % (s.options.length : Int),
      selectedOptionUpdated := true } := by
  unfold selectPreviousOption
  rw [hd]
  simp only [ht, if_true]
  rw [cycledOptionIndex_eq_emod s (s.selectedOption - 1) (by omega) (by omega) (by omega)]

theorem iterateSelectNext_emod :
    ∀ (n : Nat) (s : DTState) (d : DialogueNode), s.dialogueData = some d →
      jsSelectTruthy d = true → 0 ≤ s.selectedOption →
      s.selectedOption < (s.options.length : Int) →
      (iterateSelectNext n s).map (fun s2 => s2.selectedOption) =
        Except.ok ((s.selectedOption + n) % (s.options.length : Int))
  | 0, s, d, hd, ht, h0, h1 => by
      simp [iterateSelectNext, Except.map, Int.emod_eq_of_lt h0 h1]
  | n + 1, s, d, hd, ht, h0, h1 => by
      have hc : 0 < (s.options.length : Int) := by omega
      have hstep := selectNextOption_char s d hd ht h0 h1
      unfold iterateSelectNext
      rw [hstep]
      have h02 : 0 ≤ (s.selectedOption + 1) % (s.options.length : Int) :=
        Int.emod_nonneg _ (by omega)
      have h12 : (s.selectedOption + 1) % (s.options.length : Int) <
          (s.options.length : Int) := Int.emod_lt_of_pos _ hc
      have hrec := iterateSelectNext_emod n
        { s with selectedOption := (s.selectedOption + 1) % (s.options.length : Int),
                 selectedOptionUpdated := true } d hd ht h02 h12
      rw [hrec]
      congr 1
      have hsplit : ((s.selectedOption + 1) % (s.options.length : Int) + (n : Int)) %
          (s.options.length : Int) =
          ((s.selectedOption + 1) + (n : Int)) % (s.options.length : Int) := by
        conv_lhs => rw [Int.add_emod]
        conv_rhs => rw [Int.add_emod]
        rw [Int.emod_emod_of_dvd _ dvd_rfl]
      rw [hsplit]
      congr 1
      push_cast
      ring

/-- C6: counterexample to the claim as stated.  On a freshly presented
Options node (reachable state: `goToNextDialogueLine` leaves
`selectedOption = -1`), `previous` is not the inverse of `next`:
next then previous lands on index `1`, not back on `-1`; likewise
`next` applied `count = 2` times gives `1`, not the original `-1`. -/
theorem c6_cycling_counterexample :
    optionsState.selectedOption = -1 ∧ optionsState.options.length = 2 ∧
    ((selectNextOption optionsState).bind selectPreviousOption).map
      (fun s2 => s2.selectedOption) = Except.ok 1 ∧
    (iterateSelectNext 2 optionsState).map (fun s2 => s2.selectedOption) =
      Except.ok 1 :=
  ⟨rfl, rfl, rfl, rfl⟩

/-- C6 (amended): once a selection exists (`0 ≤ selectedIndex < count`),
option cycling is the cyclic group on the index: `next`/`previous` are
increment/decrement modulo the candidate count (wrapping at both ends),
`previous` inverts `next` (and vice versa), and `next` applied `count`
times returns to the original index; both are no-ops when the current
node does not support selection.  From the no-selection state `-1`,
`next` moves to `0` and `previous` to `count - 1`, so the group laws do
not extend to `-1`. -/
theorem c6_option_cycling_amended :
    (∀ (s : DTState) (d : DialogueNode), s.dialogueData = some d →
      jsSelectTruthy d = true → 0 ≤ s.selectedOption →
      s.selectedOption < (s.options.length : Int) →
      (selectNextOption s = Except.ok { s with
          selectedOption := (s.selectedOption + 1) % (s.options.length : Int),
          selectedOptionUpdated := true } ∧
        selectPreviousOption s = Except.ok { s with
          selectedOption := (s.selectedOption - 1) % (s.options.length : Int),
          selectedOptionUpdated := true } ∧
        ((selectNextOption s).bind selectPreviousOption).map
          (fun s2 => s2.selectedOption) = Except.ok s.selectedOption ∧
        ((selectPreviousOption s).bind selectNextOption).map
          (fun s2 => s2.selectedOption) = Except.ok s.selectedOption ∧
        (iterateSelectNext s.options.length s).map (fun s2 => s2.selectedOption) =
          Except.ok s.selectedOption)) ∧
    (∀ (s : DTState) (d : DialogueNode), s.dialogueData = some d →
      jsSelectTruthy d = false →
      selectNextOption s = Except.ok s ∧ selectPreviousOption s = Except.ok s) := by
  constructor
  · intro s d hd ht h0 h1
    have hc : 0 < (s.options.length : Int) := by omega
    have hnext := selectNextOption_char s d hd ht h0 h1
    have hprev := selectPreviousOption_char s d hd ht h0 h1
    refine ⟨hnext, hprev, ?_, ?_, ?_⟩
    · rw [hnext]
      have h02 : 0 ≤ (s.selectedOption + 1) % (s.options.length : Int) :=
        Int.emod_nonneg _ (by omega)
      have h12 : (s.selectedOption + 1) % (s.options.length : Int) <
          (s.options.length : Int) := Int.emod_lt_of_pos _ hc
      have hp2 := selectPreviousOption_char
        { s with selectedOption := (s.selectedOption + 1) % (s.options.length : Int),
                 selectedOptionUpdated := true } d hd ht h02 h12
      show (selectPreviousOption _).map (fun s2 => s2.selectedOption) = _
      rw [hp2]
      show Except.ok (((s.selectedOption + 1) % (s.options.length : Int) - 1) %
        (s.options.length : Int)) = Except.ok s.selectedOption
      have key : ((s.selectedOption + 1) % (s.options.length : Int) - 1) %
          (s.options.length : Int) = s.selectedOption := by
        by_cases hie : s.selectedOption + 1 = (s.options.length : Int)
        · have e1 : (s.selectedOption + 1) % (s.options.length : Int) = 0 := by
            rw [hie]
            exact Int.emod_self
          have e2 : ((0 : Int) - 1) % (s.options.length : Int) =
              (s.options.length : Int) - 1 := by
            rw [show (0 : Int) - 1 = ((s.options.length : Int) - 1) +
              (-1) * (s.options.length : Int) by ring, Int.add_mul_emod_self]
            exact Int.emod_eq_of_lt (by omega) (by omega)
          rw [e1, e2]
          omega
        · have e1 : (s.selectedOption + 1) % (s.options.length : Int) =
              s.selectedOption + 1 := Int.emod_eq_of_lt (by omega) (by omega)
          rw [e1, show s.selectedOption + 1 - 1 = s.selectedOption by ring]
          exact Int.emod_eq_of_lt h0 h1
      rw [key]
    · rw [hprev]
      have h02 : 0 ≤ (s.selectedOption - 1) % (s.options.length : Int) :=
        Int.emod_nonneg _ (by omega)
      have h12 : (s.selectedOption - 1) % (s.options.length : Int) <
          (s.options.length : Int) := Int.emod_lt_of_pos _ hc
      have hn2 := selectNextOption_char
        { s with selectedOption := (s.selectedOption - 1) % (s.options.length : Int),
                 selectedOptionUpdated := true } d hd ht h02 h12
      show (selectNextOption _).map (fun s2 => s2.selectedOption) = _
      rw [hn2]
      show Except.ok (((s.selectedOption - 1) % (s.options.length : Int) + 1) %
        (s.options.length : Int)) = Except.ok s.selectedOption
      have key : ((s.selectedOption - 1) % (s.options.length : Int) + 1) %
          (s.options.length : Int) = s.selectedOption := by
        by_cases hie : s.selectedOption = 0
        · have e1 : (s.selectedOption - 1) % (s.options.length : Int) =
              (s.options.length : Int) - 1 := by
            rw [hie]
            rw [show (0 : Int) - 1 = ((s.options.length : Int) - 1) +
              (-1) * (s.options.length : Int) by ring, Int.add_mul_emod_self]
            exact Int.emod_eq_of_lt (by omega) (by omega)
          rw [e1, show (s.options.length : Int) - 1 + 1 = (s.options.length : Int)
            by ring, Int.emod_self, hie]
        · have e1 : (s.selectedOption - 1) % (s.options.length : Int) =
              s.selectedOption - 1 := Int.emod_eq_of_lt (by omega) (by omega)
          rw [e1, show s.selectedOption - 1 + 1 = s.selectedOption by ring]
          exact Int.emod_eq_of_lt h0 h1
      rw [key]
    · rw [iterateSelectNext_emod s.options.length s d hd ht h0 h1]
      congr 1
      rw [show s.selectedOption + (s.options.length : Int) =
        s.selectedOption + 1 * (s.options.length : Int) by ring]
      rw [Int.add_mul_emod_self]
      exact Int.emod_eq_of_lt h0 h1
  · intro s d hd ht
    constructor
    · unfold selectNextOption
      rw [hd]
      simp [ht]
    · unfold selectPreviousOption
      rw [hd]
      simp [ht]

/-- C6 (amended) witness on a concrete selection state. -/
theorem c6_option_cycling_amended_witness :
    ((selectNextOption { optionsState with selectedOption := 0 }).bind
      selectPreviousOption).map (fun s2 => s2.selectedOption) = Except.ok 0 := by
  have h := (c6_option_cycling_amended.1 { optionsState with selectedOption := 0 }
    (DialogueNode.options ["Yes", "No"]) rfl rfl (by decide) (by decide)).2.2.1
  simpa using h

/-- C3: counterexample to the claim as stated.  On a running line
`"Hi there"` with `clipTextEnd = 3` and a `wait` command queued at fire
offset 3 (so `clipEnd ≠ len`), `isCommandCalled("wait")` pauses and
schedules the timer as claimed — but it **does** report the wait entry
as a match: it returns true, removes the entry and captures its
parameters, contradicting the claim's final part. -/
theorem c3_wait_match_counterexample :
    (isCommandCalled "wait" waitLineState).1 = true ∧
    (isCommandCalled "wait" waitLineState).2.pauseScrolling = true ∧
    (isCommandCalled "wait" waitLineState).2.commandCalls = [] ∧
    (isCommandCalled "wait" waitLineState).2.pendingTimers = [⟨some 500, 0⟩] ∧
    (isCommandCalled "wait" waitLineState).2.commandParameters = ["wait", "500"] :=
  ⟨rfl, rfl, rfl, rfl, rfl⟩

/-- C3 (amended): an eligible `wait` entry at the head of the queue
(`clipEnd ≥ fireOffset`, `clipEnd ≠ len`, scroll not paused) sets the
pause flag and schedules a host timer for `parseInt(params[1], 10)`
milliseconds.  When the polled name is not `"wait"` the wait entry is
not reported as a match and the scan continues over the remaining
entries; when the polled name is `"wait"` the scan **does** report it:
the call returns true, removes the entry and captures its parameters. -/
theorem c3_wait_entry_amended (s : DTState) (command : String) (e : CommandCall)
    (rest : List CommandCall) (hq : s.commandCalls = e :: rest) (hw : e.cmd = "wait")
    (hp : s.pauseScrolling = false) (ht : e.time ≤ s.clipTextEnd)
    (hne : s.clipTextEnd ≠ s.dialogueText.length) :
    (isCommandCalled command s).2.pauseScrolling = true ∧
    (⟨(e.params.get? 1).bind jsParseInt, 0⟩ : PendingTimer) ∈
      (isCommandCalled command s).2.pendingTimers ∧
    (command = "wait" →
      (isCommandCalled command s).1 = true ∧
      (isCommandCalled command s).2.commandCalls = rest ∧
      (isCommandCalled command s).2.commandParameters = e.params) ∧
    (command ≠ "wait" →
      (isCommandCalled command s).1 =
        (scanCommandCalls command s.clipTextEnd s.dialogueText.length rest 1).matched.isSome) := by
  have hscan0 : scanCommandCalls command s.clipTextEnd s.dialogueText.length
      (e :: rest) 0 =
      (if e.cmd = command then
        (⟨some (0, e.params), [⟨(e.params.get? 1).bind jsParseInt, 0⟩]⟩ : ScanOut)
      else
        ⟨(scanCommandCalls command s.clipTextEnd s.dialogueText.length rest 1).matched,
          ⟨(e.params.get? 1).bind jsParseInt, 0⟩ ::
            (scanCommandCalls command s.clipTextEnd s.dialogueText.length rest 1).waits⟩) := by
    have hnotlt : ¬(s.clipTextEnd < e.time) := by omega
    have hcond : e.cmd = "wait" ∧ s.clipTextEnd ≠ s.dialogueText.length := ⟨hw, hne⟩
    rw [scanCommandCalls, if_neg hnotlt, if_pos hcond]
    rfl
  unfold isCommandCalled
  rw [hp]
  simp only [Bool.false_eq_true, if_false, hq, hscan0]
  by_cases hcmd : e.cmd = command
  · rw [if_pos hcmd]
    have hcw : command = "wait" := hcmd ▸ hw
    refine ⟨by simp, by simp, fun _ => ⟨rfl, by simp, rfl⟩, fun hne2 => absurd hcw hne2⟩
  · rw [if_neg hcmd]
    refine ⟨?_, ?_, ?_, ?_⟩
    · cases hm : (scanCommandCalls command s.clipTextEnd s.dialogueText.length rest 1).matched with
      | none => simp
      | some p => cases p with | mk i ps => simp
    · cases hm : (scanCommandCalls command s.clipTextEnd s.dialogueText.length rest 1).matched with
      | none => simp
      | some p => cases p with | mk i ps => simp
    · intro hcw
      exact absurd (hcw ▸ hw : e.cmd = command) hcmd
    · intro _
      cases hm : (scanCommandCalls command s.clipTextEnd s.dialogueText.length rest 1).matched with
      | none => simp [hm]
      | some p => cases p with | mk i ps => simp [hm]

/-- C3 (amended) witness: polling for a different name pauses without
matching the wait entry. -/
theorem c3_wait_entry_amended_witness :
    (isCommandCalled "go" waitLineState).2.pauseScrolling = true ∧
    (isCommandCalled "go" waitLineState).1 = false := by
  have h := c3_wait_entry_amended waitLineState "go" ⟨"wait", ["wait", "500"], 3⟩ []
    rfl rfl rfl (by decide) (by decide)
  refine ⟨h.1, ?_⟩
  rw [h.2.2.2 (by decide)]
  rfl

/-! ### Exactly-once command firing (claim C1) -/

theorem isCommandCalled_single_hit (s : DTState) (e : CommandCall)
    (hp : s.pauseScrolling = false) (hq : s.commandCalls = [e])
    (ht : e.time ≤ s.clipTextEnd) :
    (isCommandCalled e.cmd s).1 = true ∧
    (isCommandCalled e.cmd s).2.commandCalls = [] ∧
    (isCommandCalled e.cmd s).2.commandParameters = e.params := by
  unfold isCommandCalled
  rw [hp]
  simp only [Bool.false_eq_true, if_false, hq]
  rw [scanCommandCalls, if_neg (show ¬(s.clipTextEnd < e.time) by omega), if_pos rfl]
  exact ⟨rfl, rfl, rfl⟩

theorem isCommandCalled_single_miss (s : DTState) (e : CommandCall)
    (hp : s.pauseScrolling = false) (hq : s.commandCalls = [e])
    (htm : s.pendingTimers = []) (ht : s.clipTextEnd < e.time) :
    (isCommandCalled e.cmd s).1 = false ∧
    (isCommandCalled e.cmd s).2.commandCalls = s.commandCalls ∧
    (isCommandCalled e.cmd s).2.pauseScrolling = false ∧
    (isCommandCalled e.cmd s).2.pendingTimers = [] ∧
    (isCommandCalled e.cmd s).2.commandParameters = s.commandParameters := by
  unfold isCommandCalled
  rw [hp]
  simp only [Bool.false_eq_true, if_false, hq]
  rw [scanCommandCalls, if_pos ht]
  rw [scanCommandCalls]
  refine ⟨rfl, rfl, rfl, ?_, rfl⟩
  show s.pendingTimers ++ [] = []
  rw [htm]
  rfl

theorem isCommandCalled_empty_queue (name : String) (s : DTState)
    (hq : s.commandCalls = []) :
    (isCommandCalled name s).1 = false ∧
    (isCommandCalled name s).2.commandCalls = [] ∧
    (isCommandCalled name s).2.commandParameters = s.commandParameters := by
  unfold isCommandCalled
  by_cases hp : s.pauseScrolling
  · simp [hp, hq]
  · simp only [Bool.not_eq_true] at hp
    rw [hp]
    simp only [Bool.false_eq_true, if_false, hq]
    rw [scanCommandCalls]
    exact ⟨rfl, rfl, rfl⟩

theorem scrollClippedText_queue_fields (s : DTState) :
    (scrollClippedText s).commandCalls = s.commandCalls ∧
    (scrollClippedText s).pauseScrolling = s.pauseScrolling ∧
    (scrollClippedText s).pendingTimers = s.pendingTimers ∧
    (scrollClippedText s).commandParameters = s.commandParameters := by
  unfold scrollClippedText
  split
  · exact ⟨rfl, rfl, rfl, rfl⟩
  · split
    · exact ⟨rfl, rfl, rfl, rfl⟩
    · exact ⟨rfl, rfl, rfl, rfl⟩

theorem fireTimer_empty_timers (k : Nat) (s : DTState)
    (h : s.pendingTimers = []) : fireTimer k s = s := by
  unfold fireTimer
  rw [h]
  rfl

theorem fireTimer_on_empty_queue (k : Nat) (s : DTState)
    (h : s.commandCalls = []) :
    (fireTimer k s).commandCalls = [] ∧
    (fireTimer k s).commandParameters = s.commandParameters := by
  unfold fireTimer
  cases hg : s.pendingTimers.get? k with
  | none => exact ⟨h, rfl⟩
  | some t =>
      refine ⟨?_, rfl⟩
      show s.commandCalls.eraseIdx t.index = []
      rw [h]
      rfl

theorem c1Inv_step (e : CommandCall) (s : DTState) (c : Nat) (op : DOp)
    (h : c1Inv e s c) :
    c1Inv e (stepOp e.cmd s op)
      (c + (if op = DOp.poll ∧ (isCommandCalled e.cmd s).1 = true then 1 else 0)) := by
  cases op with
  | tick =>
      rw [if_neg (by simp)]
      have hf := scrollClippedText_queue_fields s
      rcases h with ⟨hc, h1, h2, h3⟩ | ⟨hc, h1, h2⟩
      · exact Or.inl ⟨hc, hf.1.trans h1, hf.2.1.trans h2, hf.2.2.1.trans h3⟩
      · exact Or.inr ⟨hc, hf.1.trans h1, hf.2.2.2.trans h2⟩
  | fire k =>
      rw [if_neg (by simp)]
      rcases h with ⟨hc, h1, h2, h3⟩ | ⟨hc, h1, h2⟩
      · have hid : stepOp e.cmd s (DOp.fire k) = s := fireTimer_empty_timers k s h3
        rw [hid]
        exact Or.inl ⟨hc, h1, h2, h3⟩
      · have hf := fireTimer_on_empty_queue k s h1
        exact Or.inr ⟨hc, hf.1, hf.2.trans h2⟩
  | poll =>
      rcases h with ⟨hc, h1, h2, h3⟩ | ⟨hc, h1, h2⟩
      · by_cases hlt : s.clipTextEnd < e.time
        · have hm := isCommandCalled_single_miss s e h2 h1 h3 hlt
          rw [if_neg (by simp [hm.1])]
          refine Or.inl ⟨hc, ?_, hm.2.2.1, hm.2.2.2.1⟩
          show (isCommandCalled e.cmd s).2.commandCalls = [e]
          rw [hm.2.1, h1]
        · have hh := isCommandCalled_single_hit s e h2 h1 (by omega)
          rw [if_pos ⟨rfl, hh.1⟩]
          exact Or.inr ⟨by omega, hh.2.1, hh.2.2⟩
      · have hm := isCommandCalled_empty_queue e.cmd s h1
        rw [if_neg (by simp [hm.1])]
        exact Or.inr ⟨hc, hm.2.1, hm.2.2.trans h2⟩

theorem c1Inv_run (e : CommandCall) :
    ∀ (ops : List DOp) (s : DTState) (c : Nat), c1Inv e s c →
      c1Inv e (runOps e.cmd s ops) (c + pollTrueCount e.cmd s ops)
  | [], s, c, h => by simpa [runOps, pollTrueCount] using h
  | op :: ops, s, c, h => by
      have hstep := c1Inv_step e s c op h
      have hrest := c1Inv_run e ops (stepOp e.cmd s op) _ hstep
      simp only [runOps, pollTrueCount]
      have harith : c + ((if op = DOp.poll ∧ (isCommandCalled e.cmd s).1 = true
          then 1 else 0) + pollTrueCount e.cmd (stepOp e.cmd s op) ops) =
          (c + (if op = DOp.poll ∧ (isCommandCalled e.cmd s).1 = true then 1 else 0)) +
            pollTrueCount e.cmd (stepOp e.cmd s op) ops := by omega
      rw [harith]
      exact hrest

theorem pollTrueCount_append (name : String) :
    ∀ (l1 l2 : List DOp) (s : DTState),
      pollTrueCount name s (l1 ++ l2) =
        pollTrueCount name s l1 + pollTrueCount name (runOps name s l1) l2
  | [], l2, s => by simp [pollTrueCount, runOps]
  | op :: l1, l2, s => by
      simp only [List.cons_append, pollTrueCount, runOps, List.append_eq]
      rw [pollTrueCount_append name l1 l2 (stepOp name s op)]
      omega

/-- C1: on a line of length `N` with exactly one command queued at fire
offset `k ≤ N`, over any interleaving of scroll ticks, polls of
`isCommandCalled` for that command's name, and `wait`-timer firings:
at most one poll returns true; if any poll happens at or after the first
moment `clipTextEnd ≥ k`, exactly one poll in the trace returns true;
and a poll that returns true occurs at `clipTextEnd ≥ k`, removes the
entry from the queue and captures its parameters. -/
theorem c1_command_fired_exactly_once (s0 : DTState) (e : CommandCall)
    (ops : List DOp)
    (hrun : s0.dialogueIsRunning = true) (hp : s0.pauseScrolling = false)
    (hq : s0.commandCalls = [e]) (htm : s0.pendingTimers = [])
    (hclip : s0.clipTextEnd = 0) (hoff : e.time ≤ s0.dialogueText.length) :
    pollTrueCount e.cmd s0 ops ≤ 1 ∧
    (∀ l1 l2 : List DOp, ops = l1 ++ DOp.poll :: l2 →
        e.time ≤ (runOps e.cmd s0 l1).clipTextEnd →
        pollTrueCount e.cmd s0 ops = 1) ∧
    (∀ l1 l2 : List DOp, ops = l1 ++ DOp.poll :: l2 →
        (isCommandCalled e.cmd (runOps e.cmd s0 l1)).1 = true →
        e.time ≤ (runOps e.cmd s0 l1).clipTextEnd ∧
        (isCommandCalled e.cmd (runOps e.cmd s0 l1)).2.commandCalls = [] ∧
        (isCommandCalled e.cmd (runOps e.cmd s0 l1)).2.commandParameters = e.params) := by
  have hinv0 : c1Inv e s0 0 := Or.inl ⟨rfl, hq, hp, htm⟩
  have hle : pollTrueCount e.cmd s0 ops ≤ 1 := by
    have h := c1Inv_run e ops s0 0 hinv0
    rcases h with ⟨hc, _, _, _⟩ | ⟨hc, _, _⟩ <;> omega
  refine ⟨hle, ?_, ?_⟩
  · intro l1 l2 hsplit hclipge
    subst hsplit
    have hmid := c1Inv_run e l1 s0 0 hinv0
    have hcount := pollTrueCount_append e.cmd l1 (DOp.poll :: l2) s0
    have hge1 : 1 ≤ pollTrueCount e.cmd s0 (l1 ++ DOp.poll :: l2) := by
      rcases hmid with ⟨hc, h1, h2, h3⟩ | ⟨hc, h1, h2⟩
      · have hh := isCommandCalled_single_hit (runOps e.cmd s0 l1) e h2 h1 hclipge
        have hcontrib : pollTrueCount e.cmd (runOps e.cmd s0 l1) (DOp.poll :: l2) =
            1 + pollTrueCount e.cmd (stepOp e.cmd (runOps e.cmd s0 l1) DOp.poll) l2 := by
          show (if DOp.poll = DOp.poll ∧
              (isCommandCalled e.cmd (runOps e.cmd s0 l1)).1 = true then 1 else 0) +
            pollTrueCount e.cmd (stepOp e.cmd (runOps e.cmd s0 l1) DOp.poll) l2 = _
          rw [if_pos ⟨rfl, hh.1⟩]
        omega
      · omega
    omega
  · intro l1 l2 hsplit hres
    subst hsplit
    have hmid := c1Inv_run e l1 s0 0 hinv0
    rcases hmid with ⟨hc, h1, h2, h3⟩ | ⟨hc, h1, h2⟩
    · by_cases hlt : (runOps e.cmd s0 l1).clipTextEnd < e.time
      · have hm := isCommandCalled_single_miss (runOps e.cmd s0 l1) e h2 h1 h3 hlt
        rw [hm.1] at hres
        exact absurd hres (by simp)
      · have hh := isCommandCalled_single_hit (runOps e.cmd s0 l1) e h2 h1 (by omega)
        exact ⟨by omega, hh.2.1, hh.2.2⟩
    · have hm := isCommandCalled_empty_queue e.cmd (runOps e.cmd s0 l1) h1
      rw [hm.1] at hres
      exact absurd hres (by simp)

/-- C1 witness: a concrete line and trace where the single queued
command fires exactly once. -/
theorem c1_command_fired_exactly_once_witness :
    pollTrueCount "go" singleCommandState
      [DOp.tick, DOp.tick, DOp.tick, DOp.poll] = 1 := by
  have h := c1_command_fired_exactly_once singleCommandState ⟨"go", ["go"], 2⟩
    [DOp.tick, DOp.tick, DOp.tick, DOp.poll] rfl rfl rfl rfl rfl (by decide)
  exact h.2.1 [DOp.tick, DOp.tick, DOp.tick] [] rfl (by decide)

/-! ### Printer / parser inversion for the persistence codec (claim C8) -/

theorem leadingDigits_append (ds rest : List Char)
    (hds : ds.all Char.isDigit = true) (hrest : noLeadingDigit rest) :
    leadingDigits (ds ++ rest) = ds := by
  induction ds with
  | nil =>
      cases rest with
      | nil => rfl
      | cons c cs =>
          have hc : c.isDigit = false := hrest
          simp [leadingDigits, hc]
  | cons c cs ih =>
      simp only [List.all_cons, Bool.and_eq_true] at hds
      simp only [List.cons_append, leadingDigits, hds.1, if_true, List.append_eq]
      rw [ih hds.2]

theorem parseNumberChars_print (cs : List Char) (h : okNumChars cs = true)
    (rest : List Char) (hrest : noLeadingDigit rest) :
    parseNumberChars (cs ++ rest) = some (cs, rest) := by
  cases cs with
  | nil => simp [okNumChars] at h
  | cons c ds =>
      by_cases hc : c = '-'
      · subst hc
        have h2 : (!ds.isEmpty && ds.all Char.isDigit) = true := h
        simp only [Bool.and_eq_true, Bool.not_eq_true'] at h2
        show (let ds2 := leadingDigits (ds ++ rest);
          if ds2.isEmpty then none
          else some ('-' :: ds2, (ds ++ rest).drop ds2.length)) = some ('-' :: ds, rest)
        simp only
        rw [leadingDigits_append ds rest h2.2 hrest, h2.1]
        simp only [Bool.false_eq_true, if_false]
        rw [List.drop_left]
      · have h3 : okNumChars (c :: ds) = (if c = '-' then
            !ds.isEmpty && ds.all Char.isDigit else (c :: ds).all Char.isDigit) := rfl
        rw [h3, if_neg hc] at h
        have h4 : parseNumberChars ((c :: ds) ++ rest) = (if c = '-' then
            (let ds2 := leadingDigits (ds ++ rest);
              if ds2.isEmpty then none
              else some ('-' :: ds2, (ds ++ rest).drop ds2.length))
            else
            (let ds2 := leadingDigits (c :: (ds ++ rest));
              if ds2.isEmpty then none
              else some (ds2, (c :: (ds ++ rest)).drop ds2.length))) := rfl
        rw [h4, if_neg hc]
        have hall : leadingDigits ((c :: ds) ++ rest) = c :: ds :=
          leadingDigits_append (c :: ds) rest h hrest
        simp only
        rw [show c :: (ds ++ rest) = (c :: ds) ++ rest from rfl, hall]
        have hne : (c :: ds).isEmpty = false := rfl
        rw [hne]
        simp only [Bool.false_eq_true, if_false]
        rw [List.drop_left]

theorem takeWhile_no_quote (content rest : List Char)
    (h : ∀ c ∈ content, c ≠ qChar) :
    (content ++ qChar :: rest).takeWhile (fun c => decide (c ≠ qChar)) = content ∧
    (content ++ qChar :: rest).dropWhile (fun c => decide (c ≠ qChar)) =
      qChar :: rest := by
  induction content with
  | nil =>
      constructor
      · simp [List.takeWhile_cons]
      · simp [List.dropWhile_cons]
  | cons c cs ih =>
      have hc : c ≠ qChar := h c (List.mem_cons_self c cs)
      have hcb : decide (c ≠ qChar) = true := by simpa using hc
      have ihh := ih (fun x hx => h x (List.mem_cons_of_mem c hx))
      constructor
      · simp only [List.cons_append, List.takeWhile_cons, hcb, if_true]
        rw [ihh.1]
      · simp only [List.cons_append, List.dropWhile_cons, hcb, if_true]
        exact ihh.2

theorem parseStringRest_print (content rest : List Char)
    (h : ∀ c ∈ content, c ≠ qChar) :
    parseStringRest (content ++ qChar :: rest) = some (content, rest) := by
  have hw := takeWhile_no_quote content rest h
  unfold parseStringRest
  rw [hw.1, hw.2]

theorem okStringChar_ne_quote (c : Char) (h : okStringChar c = true) : c ≠ qChar := by
  unfold okStringChar at h
  simp only [Bool.and_eq_true, Bool.not_eq_true'] at h
  intro he
  rw [he] at h
  simp at h

theorem all_okStringChar_ne_quote (cs : List Char) (h : cs.all okStringChar = true) :
    ∀ c ∈ cs, c ≠ qChar := by
  intro c hc
  exact okStringChar_ne_quote c (by
    rw [List.all_eq_true] at h
    exact h c hc)

theorem num_head_cases (c : Char) (cs : List Char) (h : okNumChars (c :: cs) = true) :
    c = '-' ∨ c.isDigit = true := by
  have h3 : okNumChars (c :: cs) = (if c = '-' then
      !cs.isEmpty && cs.all Char.isDigit else (c :: cs).all Char.isDigit) := rfl
  rw [h3] at h
  by_cases hc : c = '-'
  · exact Or.inl hc
  · rw [if_neg hc] at h
    simp only [List.all_cons, Bool.and_eq_true] at h
    exact Or.inr h.1

theorem num_head_ne (c : Char) (hc : c = '-' ∨ c.isDigit = true) :
    c ≠ 'n' ∧ c ≠ 't' ∧ c ≠ 'f' ∧ c ≠ qChar ∧ c ≠ lbChar := by
  rcases hc with hc | hc
  · subst hc
    exact ⟨by decide, by decide, by decide, by decide, by decide⟩
  · refine ⟨?_, ?_, ?_, ?_, ?_⟩ <;> intro he <;> rw [he] at hc <;>
      exact absurd hc (by decide)

mutual
theorem parseJsonVal_print : ∀ (v : JsValue), JsValue.wf v = true →
    ∀ (fuel : Nat), costV v ≤ fuel → ∀ (rest : List Char), noLeadingDigit rest →
    parseJsonVal fuel (jsonPrintL v ++ rest) = Except.ok (v, rest)
  | .undef, h, _, _, _, _ => by simp [JsValue.wf] at h
  | .null, _, fuel, hf, rest, _ => by
      cases fuel with
      | zero => exact absurd (show (1 : Nat) ≤ 0 from hf) (by omega)
      | succ f => rfl
  | .b true, _, fuel, hf, rest, _ => by
      cases fuel with
      | zero => exact absurd (show (1 : Nat) ≤ 0 from hf) (by omega)
      | succ f => rfl
  | .b false, _, fuel, hf, rest, _ => by
      cases fuel with
      | zero => exact absurd (show (1 : Nat) ≤ 0 from hf) (by omega)
      | succ f => rfl
  | .s str, h, fuel, hf, rest, _ => by
      cases fuel with
      | zero => exact absurd (show (1 : Nat) ≤ 0 from hf) (by omega)
      | succ f =>
          have hchars : ∀ c ∈ str.toList, c ≠ qChar :=
            all_okStringChar_ne_quote str.toList (by simpa [JsValue.wf] using h)
          show parseJsonVal (f + 1) ((qChar :: (str.toList ++ [qChar])) ++ rest) = _
          rw [show (qChar :: (str.toList ++ [qChar])) ++ rest =
            qChar :: (str.toList ++ (qChar :: rest)) by simp]
          show (match parseStringRest (str.toList ++ (qChar :: rest)) with
                | some (content, rest2) =>
                    Except.ok (JsValue.s content.asString, rest2)
                | none => Except.error "unterminated string") = _
          rw [parseStringRest_print str.toList rest hchars]
          rfl
  | .num d, h, fuel, hf, rest, hrest => by
      cases fuel with
      | zero => exact absurd (show (1 : Nat) ≤ 0 from hf) (by omega)
      | succ f =>
          have hok : okNumChars d.toList = true := by
            simpa [JsValue.wf, okNumString] using h
          show parseJsonVal (f + 1) (d.toList ++ rest) = _
          cases hd : d.toList with
          | nil =>
              rw [hd] at hok
              exact absurd hok (by simp [okNumChars])
          | cons c cs =>
              rw [hd] at hok
              have hne := num_head_ne c (num_head_cases c cs hok)
              show parseJsonVal (f + 1) (c :: (cs ++ rest)) = _
              have heq : parseJsonVal (f + 1) (c :: (cs ++ rest)) =
                  (match parseNumberChars (c :: (cs ++ rest)) with
                   | some (numCs, rest2) =>
                       Except.ok (JsValue.num numCs.asString, rest2)
                   | none => Except.error "unexpected character") := by
                simp only [parseJsonVal]
                rw [if_neg hne.1, if_neg hne.2.1, if_neg hne.2.2.1,
                  if_neg hne.2.2.2.1, if_neg hne.2.2.2.2]
              rw [heq, show c :: (cs ++ rest) = (c :: cs) ++ rest from rfl,
                parseNumberChars_print (c :: cs) hok rest hrest]
              have hds : (c :: cs).asString = d := by
                rw [← hd]
                rfl
              show Except.ok (JsValue.num (c :: cs).asString, rest) =
                Except.ok (JsValue.num d, rest)
              rw [hds]
  | .obj ms, h, fuel, hf, rest, _ => by
      cases fuel with
      | zero =>
          have h1 : costM ms + 1 ≤ 0 := hf
          exact absurd h1 (by omega)
      | succ f =>
          cases ms with
          | nil => rfl
          | cons k v r =>
              have hms := parseJsonMembers_print (JsMembers.cons k v r) (by simp)
                (by simpa [JsValue.wf] using h) f
                (by
                  have h1 : costM (JsMembers.cons k v r) + 1 ≤ f + 1 := hf
                  omega) rest
              show parseJsonVal (f + 1) ((lbChar :: (jsonPrintMembersL
                (JsMembers.cons k v r) ++ [rbChar])) ++ rest) = _
              rw [show (lbChar :: (jsonPrintMembersL (JsMembers.cons k v r) ++
                [rbChar])) ++ rest = lbChar :: (jsonPrintMembersL
                  (JsMembers.cons k v r) ++ (rbChar :: rest)) by simp]
              have hstep : parseJsonVal (f + 1) (lbChar :: (jsonPrintMembersL
                  (JsMembers.cons k v r) ++ (rbChar :: rest))) =
                  (match parseJsonMembers f (jsonPrintMembersL
                      (JsMembers.cons k v r) ++ (rbChar :: rest)) with
                   | Except.ok (ms2, rest2) => Except.ok (JsValue.obj ms2, rest2)
                   | Except.error e => Except.error e) := by
                cases r with
                | nil => rfl
                | cons k2 v2 r2 => rfl
              rw [hstep, hms]
theorem parseJsonMembers_print : ∀ (ms : JsMembers), ms ≠ JsMembers.nil →
    JsMembers.wf ms = true → ∀ (fuel : Nat), costM ms ≤ fuel → ∀ (rest : List Char),
    parseJsonMembers fuel (jsonPrintMembersL ms ++ (rbChar :: rest)) =
      Except.ok (ms, rest)
  | .nil, hne, _, _, _, _ => absurd rfl hne
  | .cons k v r, _, hwf, fuel, hf, rest => by
      cases fuel with
      | zero =>
          have h1 : max (costV v) (costM r) + 1 ≤ 0 := hf
          exact absurd h1 (by omega)
      | succ f =>
          have hfv : costV v ≤ f := by
            have h1 : max (costV v) (costM r) + 1 ≤ f + 1 := hf
            have h2 : costV v ≤ max (costV v) (costM r) := Nat.le_max_left _ _
            omega
          have hwf2 : (k.toList.all okStringChar && JsValue.wf v &&
              JsMembers.wf r) = true := hwf
          simp only [Bool.and_eq_true] at hwf2
          have hkey : ∀ c ∈ k.toList, c ≠ qChar :=
            all_okStringChar_ne_quote k.toList hwf2.1.1
          cases r with
          | nil =>
              show parseJsonMembers (f + 1) ((qChar :: (k.toList ++
                (qChar :: ':' :: jsonPrintL v))) ++ (rbChar :: rest)) = _
              rw [show (qChar :: (k.toList ++ (qChar :: ':' :: jsonPrintL v))) ++
                (rbChar :: rest) = qChar :: (k.toList ++ (qChar ::
                  (':' :: (jsonPrintL v ++ (rbChar :: rest))))) by simp]
              show (match parseStringRest (k.toList ++ (qChar ::
                    (':' :: (jsonPrintL v ++ (rbChar :: rest))))) with
                   | some (key, cs2) => parseMemberTail f key cs2
                   | none => Except.error "unterminated key") = _
              rw [parseStringRest_print k.toList _ hkey]
              show (match parseJsonVal f (jsonPrintL v ++ (rbChar :: rest)) with
                   | Except.ok (v2, cs4) => parseMemberDelim f k.toList v2 cs4
                   | Except.error e => Except.error e) = _
              rw [parseJsonVal_print v hwf2.1.2 f hfv (rbChar :: rest)
                (by exact (by decide : rbChar.isDigit = false))]
              show parseMemberDelim f k.toList v (rbChar :: rest) =
                Except.ok (JsMembers.cons k v JsMembers.nil, rest)
              rfl
          | cons k2 v2 r2 =>
              have hfr : costM (JsMembers.cons k2 v2 r2) ≤ f := by
                have h1 : max (costV v) (costM (JsMembers.cons k2 v2 r2)) + 1 ≤
                    f + 1 := hf
                have h2 : costM (JsMembers.cons k2 v2 r2) ≤
                    max (costV v) (costM (JsMembers.cons k2 v2 r2)) :=
                  Nat.le_max_right _ _
                omega
              have hrec := parseJsonMembers_print (JsMembers.cons k2 v2 r2)
                (by simp) hwf2.2 f hfr rest
              show parseJsonMembers (f + 1) ((qChar :: (k.toList ++
                (qChar :: ':' :: (jsonPrintL v ++ (',' :: jsonPrintMembersL
                  (JsMembers.cons k2 v2 r2)))))) ++ (rbChar :: rest)) = _
              rw [show (qChar :: (k.toList ++ (qChar :: ':' :: (jsonPrintL v ++
                (',' :: jsonPrintMembersL (JsMembers.cons k2 v2 r2)))))) ++
                  (rbChar :: rest) = qChar :: (k.toList ++ (qChar ::
                    (':' :: (jsonPrintL v ++ (',' :: (jsonPrintMembersL
                      (JsMembers.cons k2 v2 r2) ++ (rbChar :: rest))))))) by simp]
              show (match parseStringRest (k.toList ++ (qChar ::
                    (':' :: (jsonPrintL v ++ (',' :: (jsonPrintMembersL
                      (JsMembers.cons k2 v2 r2) ++ (rbChar :: rest))))))) with
                   | some (key, cs2) => parseMemberTail f key cs2
                   | none => Except.error "unterminated key") = _
              rw [parseStringRest_print k.toList _ hkey]
              show (match parseJsonVal f (jsonPrintL v ++ (',' ::
                    (jsonPrintMembersL (JsMembers.cons k2 v2 r2) ++
                      (rbChar :: rest)))) with
                   | Except.ok (v3, cs4) => parseMemberDelim f k.toList v3 cs4
                   | Except.error e => Except.error e) = _
              rw [parseJsonVal_print v hwf2.1.2 f hfv (',' ::
                (jsonPrintMembersL (JsMembers.cons k2 v2 r2) ++
                  (rbChar :: rest)))
                (by exact (by decide : (',' : Char).isDigit = false))]
              show (match parseJsonMembers f (jsonPrintMembersL
                    (JsMembers.cons k2 v2 r2) ++ (rbChar :: rest)) with
                   | Except.ok (ms2, rest2) =>
                       Except.ok (JsMembers.cons k.toList.asString v ms2, rest2)
                   | Except.error e => Except.error e) = _
              rw [hrec]
              rfl
end

mutual
theorem costV_le : ∀ v : JsValue, costV v ≤ (jsonPrintL v).length + 1
  | .undef => by simp [costV, jsonPrintL]
  | .null => by simp [costV, jsonPrintL]
  | .b true => by simp [costV, jsonPrintL]
  | .b false => by simp [costV, jsonPrintL]
  | .num d => by simp [costV, jsonPrintL]
  | .s str => by simp [costV, jsonPrintL]
  | .obj ms => by
      have h := costM_le ms
      simp only [costV, jsonPrintL, List.length_cons, List.length_append,
        List.length_singleton]
      omega
theorem costM_le : ∀ ms : JsMembers, costM ms ≤ (jsonPrintMembersL ms).length + 1
  | .nil => by simp [costM, jsonPrintMembersL]
  | .cons k v .nil => by
      have h := costV_le v
      have e1 : costM (JsMembers.cons k v JsMembers.nil) = max (costV v) 1 + 1 := rfl
      have e2 : jsonPrintMembersL (JsMembers.cons k v JsMembers.nil) =
          qChar :: (k.toList ++ (qChar :: ':' :: jsonPrintL v)) := rfl
      rw [e1, e2]
      simp only [List.length_cons, List.length_append]
      have hmax : max (costV v) 1 ≤ (jsonPrintL v).length + 1 :=
        Nat.max_le.mpr ⟨by omega, by omega⟩
      omega
  | .cons k v (.cons k2 v2 r2) => by
      have h := costV_le v
      have h3 := costM_le (JsMembers.cons k2 v2 r2)
      have e1 : costM (JsMembers.cons k v (JsMembers.cons k2 v2 r2)) =
          max (costV v) (costM (JsMembers.cons k2 v2 r2)) + 1 := rfl
      have e2 : jsonPrintMembersL (JsMembers.cons k v (JsMembers.cons k2 v2 r2)) =
          qChar :: (k.toList ++ (qChar :: ':' :: (jsonPrintL v ++
            (',' :: jsonPrintMembersL (JsMembers.cons k2 v2 r2))))) := rfl
      rw [e1, e2]
      simp only [List.length_cons, List.length_append]
      have hmax : max (costV v) (costM (JsMembers.cons k2 v2 r2)) ≤
          (jsonPrintL v).length +
            (jsonPrintMembersL (JsMembers.cons k2 v2 r2)).length + 2 :=
        Nat.max_le.mpr ⟨by omega, by omega⟩
      omega
end

theorem jsonParse_print (v : JsValue) (h : JsValue.wf v = true) :
    jsonParse (jsonPrint v) = Except.ok v := by
  have hlen : costV v ≤ (jsonPrintL v).length + 1 := by
    have h1 := costV_le v
    omega
  have hp := parseJsonVal_print v h ((jsonPrintL v).length + 1) hlen []
    trivial
  rw [List.append_nil] at hp
  unfold jsonParse
  rw [show (jsonPrint v).toList = jsonPrintL v from rfl, hp]

theorem lookupLast_pair (a b : JsValue) :
    (JsMembers.cons "variables" a (JsMembers.cons "visited" b
      JsMembers.nil)).lookupLast "visited" = some b ∧
    (JsMembers.cons "variables" a (JsMembers.cons "visited" b
      JsMembers.nil)).lookupLast "variables" = some a := by
  constructor <;> simp [JsMembers.lookupLast]

/-- C8: counterexample to the claim as stated.  The input `"{}"` fails to
have the PersistedState shape but parses fine as JSON, so `loadState`
does **not** leave the tables untouched: it overwrites both the visited
table and the variable table with `undefined`.  Only a JSON syntax error
is caught. -/
theorem c8_shape_failure_counterexample :
    jsonParse emptyObjText = Except.ok (JsValue.obj JsMembers.nil) ∧
    (loadState tableRunner emptyObjText).visited = JsValue.undef ∧
    (loadState tableRunner emptyObjText).variablesData = JsValue.undef ∧
    tableRunner.visited ≠ JsValue.undef ∧
    tableRunner.variablesData ≠ JsValue.undef := by
  refine ⟨rfl, rfl, rfl, by decide, by decide⟩

/-- C8 (amended): `load(save())` restores both interpreter tables exactly
(for JSON-representable tables); when the input fails to parse **as
JSON** the error is reported and both tables are left untouched
atomically; on any successful parse of an object, both tables are
replaced wholesale by the parsed object's `visited` and `variables`
fields — `undefined` when missing — with no shape validation and no
merge. -/
theorem c8_persistence_amended :
    (∀ r : Runner, JsValue.wf r.variablesData = true →
        JsValue.wf r.visited = true → loadState r (saveState r) = r) ∧
    (∀ (r : Runner) (input : String) (e : String),
        jsonParse input = Except.error e → loadState r input = r) ∧
    (∀ (r : Runner) (input : String) (ms : JsMembers),
        jsonParse input = Except.ok (JsValue.obj ms) →
        loadState r input = { r with
          visited := (ms.lookupLast "visited").getD JsValue.undef,
          variablesData := (ms.lookupLast "variables").getD JsValue.undef }) := by
  refine ⟨?_, ?_, ?_⟩
  · intro r h1 h2
    have hk1 : "variables".toList.all okStringChar = true := by decide
    have hk2 : "visited".toList.all okStringChar = true := by decide
    have hwf : JsValue.wf (JsValue.obj (JsMembers.cons "variables" r.variablesData
        (JsMembers.cons "visited" r.visited JsMembers.nil))) = true := by
      show (("variables".toList.all okStringChar && JsValue.wf r.variablesData) &&
        (("visited".toList.all okStringChar && JsValue.wf r.visited) &&
          JsMembers.wf JsMembers.nil)) = true
      rw [hk1, hk2, h1, h2]
      rfl
    unfold loadState saveState
    rw [jsonParse_print _ hwf]
    show (match jsMember (JsValue.obj (JsMembers.cons "variables" r.variablesData
        (JsMembers.cons "visited" r.visited JsMembers.nil))) "visited" with
      | Except.error _ => r
      | Except.ok vis =>
        match jsMember (JsValue.obj (JsMembers.cons "variables" r.variablesData
            (JsMembers.cons "visited" r.visited JsMembers.nil))) "variables" with
        | Except.error _ => { r with visited := vis }
        | Except.ok vars => { r with visited := vis, variablesData := vars }) = r
    simp only [jsMember]
    rw [(lookupLast_pair r.variablesData r.visited).1,
      (lookupLast_pair r.variablesData r.visited).2]
    rfl
  · intro r input e he
    unfold loadState
    rw [he]
  · intro r input ms hok
    unfold loadState
    rw [hok]
    simp only [jsMember]

/-- C8 (amended) witness: a concrete runner with non-trivial tables
round-trips through `saveState`/`loadState`. -/
theorem c8_persistence_amended_witness :
    loadState tableRunner (saveState tableRunner) = tableRunner :=
  c8_persistence_amended.1 tableRunner (by decide) (by decide)

end DialogueTree
